import Mathlib

/-!
Verification development for the Aj+ SEO Image Optimizer.

The development is a shallow embedding of the repository's core logic:

* `types.ts`: the `OptimizedImage` record, its `ImageMetadata`, the status union and
  the compression configuration.
* `services/compressionService.ts` (`compressImage`, `formatBytes`): the dimension
  calculation of the compressor and the byte formatter's unit-table lookup.
* `services/geminiService.ts` (`generateImageMetadata`): the success-path fallbacks and
  the catch-branch defaults of the metadata generator.
* `App.tsx` (`processFiles`, `updateImage`, `handleRecompress`, `removeImage`): the
  collection operations, modelled as pure state transformers on the image list.
* `components/ImageEditor.tsx` (`handleGenerateSEO`, `handleQualityRelease`): the
  metadata-generation handler and the quality-slider commit handler.

Browser values are modelled as follows: a `File` by its name, declared content type and
size; a `Blob` by its byte list (so `Blob.size` is the byte length); object URLs by
opaque strings; JS numbers used for the quality level by rationals (only equality of
quality values matters to the embedded logic); JS strings by Lean strings, with the
ASCII reading of `toLowerCase`. Asynchronous completion of a compression or metadata
job is modelled by applying the corresponding state transformer when the job's promise
resolves, exactly mirroring the callback bodies in the source.
-/

/-- Item lifecycle status, from `types.ts`:
`'pending' | 'compressing' | 'analyzing' | 'done' | 'error'`. -/
inductive Status where
  | pending
  | compressing
  | analyzing
  | done
  | error
deriving DecidableEq

/-- A binary blob, modelled by its byte list. -/
structure Blob where
  bytes : List Nat
deriving DecidableEq

/-- The `size` property of a blob: its byte length. -/
def Blob.size (b : Blob) : Nat := b.bytes.length

/-- The `ImageMetadata` record of `types.ts`. -/
structure ImageMetadata where
  title : String
  altText : String
  caption : String
  fileName : String
deriving DecidableEq

/-- An uploaded `File` as the core logic sees it: name, declared content type, size. -/
structure FileDesc where
  name : String
  type : String
  size : Nat
deriving DecidableEq

/-- The `OptimizedImage` record of `types.ts`. `originalPreview` is the object URL
handed out by `URL.createObjectURL`, modelled as an opaque string. -/
structure OptimizedImage where
  id : String
  originalFile : FileDesc
  originalPreview : String
  compressedBlob : Option Blob
  compressedSize : Nat
  originalSize : Nat
  status : Status
  metadata : ImageMetadata
  currentQuality : ℚ
deriving DecidableEq

/-- The quality default `0.7` used at item creation. -/
def quality07 : ℚ := ⟨7, 10, by norm_num, by norm_num⟩

/-- JS `s.split('.')[0]`: the part of the string before the first `'.'`
(the whole string when it has none). -/
def takeBeforeFirstDot (s : String) : String := ⟨s.data.takeWhile (fun c => c ≠ '.')⟩

/-- JS `toLowerCase`, modelled characterwise on ASCII. -/
def toLowerStr (s : String) : String := ⟨s.data.map Char.toLower⟩

/-- Worker for `collapseWs`: the flag records whether the previous character was
whitespace, so each maximal whitespace run emits exactly one hyphen. -/
def collapseWsAux : Bool → List Char → List Char
  | _, [] => []
  | inWs, c :: cs =>
    if c.isWhitespace then
      (if inWs then [] else ['-']) ++ collapseWsAux true cs
    else c :: collapseWsAux false cs

/-- JS `replace(/\s+/g, '-')`: each maximal whitespace run becomes a single hyphen. -/
def collapseWs (s : String) : String := ⟨collapseWsAux false s.data⟩

/-- The default `fileName` derived in `processFiles`:
`file.name.split('.')[0].toLowerCase().replace(/\s+/g, '-')`. -/
def defaultFileName (name : String) : String :=
  collapseWs (toLowerStr (takeBeforeFirstDot name))

/-- Modelled from the spec for the refinement side of C6: the original name with its
final extension removed, i.e. everything before the last `'.'` (the whole name when it
has no dot). -/
def removeFinalExtension (s : String) : String :=
  if s.data.contains '.' then ⟨((s.data.reverse.dropWhile (fun c => c ≠ '.')).drop 1).reverse⟩
  else s

/-- Modelled from the spec for the refinement side of C6: "lowercased,
whitespace-to-hyphen normalization of the original name without extension", reading
"without extension" as removal of the final extension. -/
def specDefaultFileName (name : String) : String :=
  collapseWs (toLowerStr (removeFinalExtension name))

/-- JS `Math.round(a / b)` for a nonnegative numerator and positive denominator:
the floor of `a / b + 1 / 2`. -/
def roundDiv (a b : Nat) : Nat := (2 * a + b) / (2 * b)

/-- The dimension step of `compressImage` in `compressionService.ts`: when the intrinsic
width exceeds `config.maxWidth`, height becomes `Math.round(height * maxWidth / width)`
and width becomes `maxWidth`; otherwise both stay unchanged. -/
def compressImageDims (width height maxWidth : Nat) : Nat × Nat :=
  if maxWidth < width then (maxWidth, roundDiv (height * maxWidth) width)
  else (width, height)

/-- The unit table of `formatBytes`. -/
def sizesTable : List String := ["Bytes", "KB", "MB", "GB"]

/-- The unit selection of `formatBytes` in `compressionService.ts`. The early return
for `0` yields the literal string `"0 Bytes"`; otherwise the appended unit is
`sizes[Math.floor(Math.log(bytes) / Math.log(1024))]`, modelled with the exact
`Nat.log 1024` for positive inputs. For negative inputs `Math.log` yields `NaN`, so the
table lookup misses (`none`); for indices past the table the lookup also misses and the
JS result carries `undefined` in unit position. The floating-point numeric prefix of
the returned string is not modelled. -/
def formatBytesUnit (bytes : Int) : Option String :=
  if bytes = 0 then some "0 Bytes"
  else if bytes < 0 then none
  else sizesTable.get? (Nat.log 1024 bytes.toNat)

/-- C1: for a decoded source of intrinsic dimensions (w, h), the compressor's output
dimensions are (maxWidth, round(h * maxWidth / w)) when w > maxWidth and exactly (w, h)
when w ≤ maxWidth, and it never upscales (neither output dimension exceeds the
corresponding input dimension). -/
theorem compressImage_dims_correct (w h mw : Nat) :
    (mw < w → compressImageDims w h mw = (mw, roundDiv (h * mw) w))
    ∧ (w ≤ mw → compressImageDims w h mw = (w, h))
    ∧ (compressImageDims w h mw).1 ≤ w ∧ (compressImageDims w h mw).2 ≤ h := by
  refine ⟨fun hlt => if_pos hlt, fun hle => if_neg (by omega), ?_, ?_⟩
  · unfold compressImageDims
    split
    · omega
    · exact le_refl w
  · unfold compressImageDims
    split
    · rename_i hlt
      show roundDiv (h * mw) w ≤ h
      have hw : 0 < w := Nat.lt_of_le_of_lt (Nat.zero_le mw) hlt
      have hmul : h * mw ≤ h * w := Nat.mul_le_mul_left h hlt.le
      have key : 2 * (h * mw) + w < (h + 1) * (2 * w) := by nlinarith
      exact Nat.lt_succ_iff.mp ((Nat.div_lt_iff_lt_mul (by omega)).mpr key)
    · exact le_refl h

/-- Witness for C1 at the spec's scenarios: a 3000×2000 source with maxWidth 1920
scales to 1920×1280, and an 800×600 source is unchanged. -/
theorem compressImage_dims_correct_witness :
    compressImageDims 3000 2000 1920 = (1920, roundDiv (2000 * 1920) 3000)
    ∧ roundDiv (2000 * 1920) 3000 = 1280
    ∧ compressImageDims 800 600 1920 = (800, 600) :=
  ⟨(compressImage_dims_correct 3000 2000 1920).1 (by decide), by decide,
    (compressImage_dims_correct 800 600 1920).2.1 (by decide)⟩

/-- C10: formatBytes(0) is "0 Bytes"; for every byte count b with 1 ≤ b < 1024^4 the
unit index floor(log_1024 b) stays inside the four-entry table, so the result carries
one of Bytes/KB/MB/GB; for b ≥ 1024^4 or negative b the lookup misses the table and the
result carries no valid unit. -/
theorem formatBytes_unit_table (b : Int) :
    (formatBytesUnit 0 = some "0 Bytes")
    ∧ (1 ≤ b → b < 1024 ^ 4 → ∃ u, formatBytesUnit b = some u ∧ u ∈ sizesTable)
    ∧ (1024 ^ 4 ≤ b → formatBytesUnit b = none)
    ∧ (b < 0 → formatBytesUnit b = none) := by
  refine ⟨by decide, fun h1 h2 => ?_, fun h4 => ?_, fun hneg => ?_⟩
  · have hb0 : b ≠ 0 := by omega
    have hbneg : ¬ b < 0 := by omega
    have htn1 : b.toNat ≠ 0 := by omega
    have htn2 : b.toNat < 1024 ^ 4 := by omega
    have hlog : Nat.log 1024 b.toNat < 4 :=
      (Nat.lt_pow_iff_log_lt (by norm_num) htn1).mp htn2
    have hlen : Nat.log 1024 b.toNat < sizesTable.length := by
      simpa [sizesTable] using hlog
    refine ⟨sizesTable.get ⟨Nat.log 1024 b.toNat, hlen⟩, ?_, List.get_mem _ _ hlen⟩
    simp [formatBytesUnit, hb0, hbneg, List.get?_eq_get hlen]
  · have hb : (0 : Int) < b := lt_of_lt_of_le (by norm_num) h4
    have hb0 : b ≠ 0 := hb.ne'
    have hbneg : ¬ b < 0 := not_lt.mpr hb.le
    have htn : 1024 ^ 4 ≤ b.toNat := by omega
    have hlog : 4 ≤ Nat.log 1024 b.toNat :=
      (Nat.pow_le_iff_le_log (by norm_num) (by omega)).mp htn
    have hlen : sizesTable.length ≤ Nat.log 1024 b.toNat := by
      simpa [sizesTable] using hlog
    simp only [formatBytesUnit, if_neg hb0, if_neg hbneg]
    exact List.get?_eq_none.mpr hlen
  · have hb0 : b ≠ 0 := by omega
    simp [formatBytesUnit, hb0, hneg]

/-- Witness for C10: a negative count and a count at 1024^4 both miss the unit table. -/
theorem formatBytes_unit_table_witness :
    formatBytesUnit (-5) = none ∧ formatBytesUnit (1024 ^ 4) = none :=
  ⟨(formatBytes_unit_table (-5)).2.2.2 (by decide),
    (formatBytes_unit_table (1024 ^ 4)).2.2.1 (le_refl _)⟩

/-- The `updateImage` helper of `App.tsx`:
`setImages(prev => prev.map(img => img.id === id ? { ...img, ...updates } : img))`,
with the spread of the partial update expressed as a function on the matched item. -/
def updateImage (images : List OptimizedImage) (id : String)
    (f : OptimizedImage → OptimizedImage) : List OptimizedImage :=
  images.map (fun img => if img.id = id then f img else img)

/-- Character-list worker for `strStartsWith`. -/
def charListLeads : List Char → List Char → Bool
  | [], _ => true
  | _ :: _, [] => false
  | p :: ps, c :: cs => (p == c) && charListLeads ps cs

/-- JS `s.startsWith(pre)`. -/
def strStartsWith (s pre : String) : Bool := charListLeads pre.data s.data

/-- The upload filter of `processFiles`: `file.type.startsWith('image/')`. -/
def isImageFile (f : FileDesc) : Bool := strStartsWith f.type "image/"

/-- The `ImageItem` literal built in `processFiles` for one accepted file. -/
def mkItem (idv : String) (f : FileDesc) (preview : String) : OptimizedImage :=
  { id := idv
    originalFile := f
    originalPreview := preview
    compressedBlob := none
    compressedSize := 0
    originalSize := f.size
    status := Status.pending
    metadata :=
      { title := ""
        altText := ""
        caption := ""
        fileName := defaultFileName f.name }
    currentQuality := quality07 }

/-- The `newImages` array of `processFiles`: one item per input whose declared content
type starts with `"image/"`. Ids and preview URLs are produced by the environment
(`generateId`, `URL.createObjectURL`), supplied here indexed by position. -/
def processFilesInit (ids previews : Nat → String) (files : List FileDesc) :
    List OptimizedImage :=
  (files.filter isImageFile).mapIdx (fun i f => mkItem (ids i) f (previews i))

/-- The `setImages(prev => [...prev, ...newImages])` step of `processFiles`. -/
def processFilesAppend (prev : List OptimizedImage) (ids previews : Nat → String)
    (files : List FileDesc) : List OptimizedImage :=
  prev ++ processFilesInit ids previews files

/-- The synchronous head of each job launched by `newImages.forEach`:
`updateImage(img.id, { status: 'compressing' })`, applied for each new item in order. -/
def startInitialJobs (images : List OptimizedImage) (ids : List String) :
    List OptimizedImage :=
  ids.foldl
    (fun acc idv => updateImage acc idv (fun img => { img with status := Status.compressing }))
    images

/-- The fulfilled branch of a compression job (`processFiles` and `handleRecompress`):
`updateImage(id, { compressedBlob: compressed, compressedSize: compressed.size,
status: 'done' })`. -/
def applyCompressionSuccess (images : List OptimizedImage) (id : String)
    (compressed : Blob) : List OptimizedImage :=
  updateImage images id (fun img =>
    { img with
      compressedBlob := some compressed
      compressedSize := compressed.size
      status := Status.done })

/-- The catch branch of a compression job: `updateImage(id, { status: 'error' })`. -/
def applyCompressionFailure (images : List OptimizedImage) (id : String) :
    List OptimizedImage :=
  updateImage images id (fun img => { img with status := Status.error })

/-- The part of `handleRecompress` in `App.tsx` before its `await`: find the item
(return at once when absent), then `updateImage(id, { status: 'compressing',
currentQuality: newQuality })`. The Bool records whether a job was started. -/
def handleRecompressStart (images : List OptimizedImage) (id : String)
    (newQuality : ℚ) : List OptimizedImage × Bool :=
  match images.find? (fun i => i.id == id) with
  | none => (images, false)
  | some _ =>
    (updateImage images id (fun img =>
      { img with status := Status.compressing, currentQuality := newQuality }), true)

/-- The `handleQualityRelease` handler of `ImageEditor.tsx`: `onQualityChange` fires
only when the local slider value differs from `image.currentQuality`. -/
def handleQualityRelease (images : List OptimizedImage) (id : String)
    (localQuality currentQuality : ℚ) : List OptimizedImage × Bool :=
  if localQuality ≠ currentQuality then handleRecompressStart images id localQuality
  else (images, false)

/-- The slider's `onChange` handler: `setLocalQuality(parseFloat(e.target.value))`.
Only the local uncommitted value changes; the collection is untouched. -/
def handleQualityDrag (state : List OptimizedImage × ℚ) (v : ℚ) :
    List OptimizedImage × ℚ :=
  (state.1, v)

/-- The `removeImage` handler of `App.tsx`: revoke the found item's preview URL and
filter the id out of the collection. The second component lists the object URLs revoked
by the call. -/
def removeImage (images : List OptimizedImage) (id : String) :
    List OptimizedImage × List String :=
  (images.filter (fun i => i.id != id),
    match images.find? (fun i => i.id == id) with
    | some img => [img.originalPreview]
    | none => [])

/-- The `handleMetadataChange` path of `ImageEditor.tsx`:
`onUpdate(image.id, { metadata: newMetadata })`. -/
def updateMetadata (images : List OptimizedImage) (id : String) (md : ImageMetadata) :
    List OptimizedImage :=
  updateImage images id (fun img => { img with metadata := md })

/-- Outcome of the external suggestion call as the client code sees it: a parsed
response object (the response schema requires all four fields) or any failure (request
error, missing response text, unparsable JSON). -/
inductive ServiceResult where
  | success (response : ImageMetadata)
  | failure
deriving DecidableEq

/-- JS `a || b` on strings: the empty string is falsy. -/
def jsOrElse (s dflt : String) : String := if s = "" then dflt else s

/-- The `generateImageMetadata` function of `geminiService.ts`: the success path
applies the `||` fallbacks to the parsed fields; the catch branch returns empty
defaults with `fileName = file.name.split('.')[0]`. -/
def generateImageMetadata (fileName0 : String) (res : ServiceResult) : ImageMetadata :=
  match res with
  | ServiceResult.success r =>
    { title := jsOrElse r.title "Untitled Image"
      altText := jsOrElse r.altText "Image description"
      caption := jsOrElse r.caption ""
      fileName := jsOrElse r.fileName "image" }
  | ServiceResult.failure =>
    { title := ""
      altText := ""
      caption := ""
      fileName := takeBeforeFirstDot fileName0 }

/-- The part of `handleGenerateSEO` before its `await`:
`onUpdate(image.id, { status: 'analyzing' })`. -/
def handleGenerateSEOStart (images : List OptimizedImage) (id : String) :
    List OptimizedImage :=
  updateImage images id (fun img => { img with status := Status.analyzing })

/-- The completion of `handleGenerateSEO`: `onUpdate(image.id, { metadata: generated,
status: 'done' })`. `generateImageMetadata` catches internally and never rejects, so
this is the only completion path of the handler. -/
def handleGenerateSEOFinish (images : List OptimizedImage) (id : String)
    (res : ServiceResult) : List OptimizedImage :=
  updateImage images id (fun img =>
    { img with
      metadata := generateImageMetadata img.originalFile.name res
      status := Status.done })

/-- Mutual consistency of `compressedBlob` and `compressedSize`: the blob is absent and
the size 0, or the blob is present and the size is its byte length. -/
def sizeConsistent (img : OptimizedImage) : Bool :=
  match img.compressedBlob with
  | none => img.compressedSize == 0
  | some b => img.compressedSize == b.size

/-- Every member of an `updateImage` result is a conditionally updated member of the
input list. -/
theorem mem_updateImage {images : List OptimizedImage} {id : String}
    {f : OptimizedImage → OptimizedImage} {img : OptimizedImage}
    (h : img ∈ updateImage images id f) :
    ∃ img0 ∈ images, img = if img0.id = id then f img0 else img0 := by
  rcases List.mem_map.mp h with ⟨img0, h0, heq⟩
  exact ⟨img0, h0, heq.symm⟩

/-- A fold of single-id status updates acts on each element as one conditional update. -/
theorem startInitialJobs_eq (ids : List String) (images : List OptimizedImage) :
    startInitialJobs images ids
      = images.map (fun img =>
          if img.id ∈ ids then { img with status := Status.compressing } else img) := by
  induction ids generalizing images with
  | nil => simp [startInitialJobs]
  | cons idv rest ih =>
    show startInitialJobs (updateImage images idv _) rest = _
    rw [ih, updateImage, List.map_map]
    apply List.map_congr_left
    intro img _
    by_cases h1 : img.id = idv
    · by_cases h2 : img.id ∈ rest <;>
        simp [Function.comp, h1, h2, List.mem_cons]
    · by_cases h2 : img.id ∈ rest <;>
        simp [Function.comp, h1, h2, List.mem_cons]

/-- A `mapIdx` whose produced elements all satisfy a predicate passes `all`. -/
theorem all_mapIdx {α β : Type} (l : List α) (f : Nat → α → β) (p : β → Bool)
    (h : ∀ i x, p (f i x) = true) : (l.mapIdx f).all p = true := by
  induction l generalizing f with
  | nil => simp
  | cons a t ih =>
    rw [List.mapIdx_cons]
    simp only [List.all_cons, h 0 a, Bool.true_and]
    exact ih _ (fun i x => h _ x)

/-- The char-list `takeWhile` over an append whose first part wholly satisfies the
predicate and whose second part starts with a failing element keeps exactly the first
part. -/
theorem takeWhile_append_cons (p : Char → Bool) (l₁ l₂ : List Char) (x : Char)
    (h : ∀ c ∈ l₁, p c = true) (hx : p x = false) :
    (l₁ ++ x :: l₂).takeWhile p = l₁ := by
  induction l₁ with
  | nil => simp [List.takeWhile_cons, hx]
  | cons a t ih =>
    simp [List.takeWhile_cons, h a (by simp),
      ih (fun c hc => h c (by simp [hc]))]

/-- C4: processFiles creates exactly one ImageItem per input whose declared content
type is an image type (non-image inputs are dropped), each created item starts in
pending, and the automatic start step then puts every created item in compressing
without further user action. -/
theorem processFiles_pending_then_compressing (ids previews : Nat → String)
    (files : List FileDesc) :
    (processFilesInit ids previews files).length = (files.filter isImageFile).length
    ∧ (processFilesInit ids previews files).all
        (fun img => img.status == Status.pending) = true
    ∧ (startInitialJobs (processFilesInit ids previews files)
        ((processFilesInit ids previews files).map (fun img => img.id))).all
        (fun img => img.status == Status.compressing) = true := by
  refine ⟨by simp [processFilesInit], ?_, ?_⟩
  · exact all_mapIdx _ _ _ (fun i x => rfl)
  · rw [startInitialJobs_eq]
    simp only [List.all_eq_true]
    intro x hx
    rcases List.mem_map.mp hx with ⟨img, hmem, hx'⟩
    have hid : img.id ∈ (processFilesInit ids previews files).map
        (fun img => img.id) := List.mem_map_of_mem _ hmem
    rw [← hx', if_pos hid]
    rfl

/-- C5: the blob/size consistency invariant — blob absent and size 0, or blob present
and size equal to its byte length — holds after ingest, compression success,
compression failure, metadata updates, removal, and the quality-commit start step,
whenever it held before. -/
theorem blob_size_invariant (images : List OptimizedImage)
    (hinv : images.all sizeConsistent = true) :
    (∀ ids previews files,
      (processFilesAppend images ids previews files).all sizeConsistent = true)
    ∧ (∀ id compressed,
      (applyCompressionSuccess images id compressed).all sizeConsistent = true)
    ∧ (∀ id, (applyCompressionFailure images id).all sizeConsistent = true)
    ∧ (∀ id md, (updateMetadata images id md).all sizeConsistent = true)
    ∧ (∀ id, (removeImage images id).1.all sizeConsistent = true)
    ∧ (∀ id q, (handleRecompressStart images id q).1.all sizeConsistent = true) := by
  rw [List.all_eq_true] at hinv
  refine ⟨?_, ?_, ?_, ?_, ?_, ?_⟩
  · intro ids previews files
    rw [processFilesAppend, List.all_append]
    refine Bool.and_eq_true_iff.mpr ⟨List.all_eq_true.mpr hinv, ?_⟩
    exact all_mapIdx _ _ _ (fun i x => rfl)
  · intro id compressed
    rw [List.all_eq_true]
    intro img hmem
    rcases mem_updateImage hmem with ⟨img0, h0, heq⟩
    by_cases hid : img0.id = id
    · rw [heq, if_pos hid]
      simp [sizeConsistent]
    · rw [heq, if_neg hid]
      exact hinv img0 h0
  · intro id
    rw [List.all_eq_true]
    intro img hmem
    rcases mem_updateImage hmem with ⟨img0, h0, heq⟩
    have hc := hinv img0 h0
    by_cases hid : img0.id = id
    · rw [heq, if_pos hid]
      simpa [sizeConsistent] using hc
    · rw [heq, if_neg hid]
      exact hc
  · intro id md
    rw [List.all_eq_true]
    intro img hmem
    rcases mem_updateImage hmem with ⟨img0, h0, heq⟩
    have hc := hinv img0 h0
    by_cases hid : img0.id = id
    · rw [heq, if_pos hid]
      simpa [sizeConsistent] using hc
    · rw [heq, if_neg hid]
      exact hc
  · intro id
    rw [List.all_eq_true]
    intro img hmem
    exact hinv img (List.mem_filter.mp hmem).1
  · intro id q
    rw [List.all_eq_true]
    intro img hmem
    unfold handleRecompressStart at hmem
    rcases hfind : images.find? (fun i => i.id == id) with _ | found
    · rw [hfind] at hmem
      exact hinv img hmem
    · rw [hfind] at hmem
      rcases mem_updateImage hmem with ⟨img0, h0, heq⟩
      have hc := hinv img0 h0
      by_cases hid : img0.id = id
      · rw [heq, if_pos hid]
        simpa [sizeConsistent] using hc
      · rw [heq, if_neg hid]
        exact hc

/-- Sample item for the C5 witness. -/
def c5Item : OptimizedImage := mkItem "a" ⟨"photo.jpg", "image/jpeg", 120⟩ "blob:1"

/-- Witness for C5: a freshly created item satisfies the invariant, and a successful
compression with a 3-byte blob preserves it. -/
theorem blob_size_invariant_witness :
    (applyCompressionSuccess [c5Item] "a" ⟨[7, 7, 7]⟩).all sizeConsistent = true :=
  (blob_size_invariant [c5Item] (by decide)).2.1 "a" ⟨[7, 7, 7]⟩

/-- C7: a compression failure sets only the failing item's status to error: the
collection keeps its length, the item with the matching id keeps every field except
status, every item's compressedBlob and compressedSize are untouched, and every other
item is carried over unchanged. -/
theorem compression_failure_frame (images : List OptimizedImage) (id : String)
    (i : Nat) :
    (applyCompressionFailure images id).length = images.length
    ∧ (applyCompressionFailure images id)[i]?
        = images[i]?.map (fun img =>
            if img.id = id then { img with status := Status.error } else img)
    ∧ (applyCompressionFailure images id).map (fun img => img.compressedBlob)
        = images.map (fun img => img.compressedBlob)
    ∧ (applyCompressionFailure images id).map (fun img => img.compressedSize)
        = images.map (fun img => img.compressedSize)
    ∧ (∀ img ∈ images, img.id ≠ id → img ∈ applyCompressionFailure images id) := by
  refine ⟨by simp [applyCompressionFailure, updateImage],
    by simp [applyCompressionFailure, updateImage], ?_, ?_, ?_⟩
  · rw [applyCompressionFailure, updateImage, List.map_map]
    apply List.map_congr_left
    intro img _
    by_cases hid : img.id = id <;> simp [Function.comp, hid]
  · rw [applyCompressionFailure, updateImage, List.map_map]
    apply List.map_congr_left
    intro img _
    by_cases hid : img.id = id <;> simp [Function.comp, hid]
  · intro img hmem hid
    have heq : (fun img0 =>
        if img0.id = id then { img0 with status := Status.error } else img0) img = img := by
      simp [hid]
    rw [applyCompressionFailure, updateImage, ← heq]
    exact List.mem_map_of_mem _ hmem

/-- Sample item for the C7 witness. -/
def c7Item : OptimizedImage := mkItem "b" ⟨"pic.png", "image/png", 64⟩ "blob:2"

/-- Witness for C7: an item whose id is not the failing one survives the failure
update unchanged. -/
theorem compression_failure_frame_witness :
    c7Item ∈ applyCompressionFailure [c7Item] "other" :=
  (compression_failure_frame [c7Item] "other" 0).2.2.2.2 c7Item (by decide) (by decide)

/-- C8: for an item present in the collection, a quality-commit event starts a new
compression job iff the committed value differs from the item's current quality; a
commit equal to the current quality leaves the collection unchanged and starts
nothing; in-drag slider changes only move the local uncommitted value and never touch
the collection. -/
theorem quality_commit_starts_job (images : List OptimizedImage)
    (img : OptimizedImage) (hmem : img ∈ images)
    (_hst : img.status = Status.done ∨ img.status = Status.error)
    (localQuality : ℚ) :
    ((handleQualityRelease images img.id localQuality img.currentQuality).2 = true
      ↔ localQuality ≠ img.currentQuality)
    ∧ handleQualityRelease images img.id img.currentQuality img.currentQuality
        = (images, false)
    ∧ (∀ l v, handleQualityDrag (images, l) v = (images, v)) := by
  have hfound : (images.find? (fun i => i.id == img.id)).isSome :=
    List.find?_isSome.mpr ⟨img, hmem, by simp⟩
  refine ⟨?_, ?_, fun l v => rfl⟩
  · by_cases hq : localQuality = img.currentQuality
    · rw [handleQualityRelease, if_neg (by simpa using hq)]
      simp [hq]
    · rw [handleQualityRelease, if_pos hq]
      rcases hfind : images.find? (fun i => i.id == img.id) with _ | found
      · rw [hfind] at hfound
        simp at hfound
      · rw [handleRecompressStart, hfind]
        simp [hq]
  · rw [handleQualityRelease, if_neg (by simp)]

/-- A committed quality value of one half, for the C8 witness. -/
def qualityHalf : ℚ := ⟨1, 2, by norm_num, by norm_num⟩

/-- Sample done item for the C8 witness. -/
def c8Item : OptimizedImage :=
  { mkItem "q" ⟨"p.jpg", "image/jpeg", 10⟩ "blob:q" with status := Status.done }

/-- Witness for C8: committing quality one half on a done item whose current quality
is the default 0.7 starts a job. -/
theorem quality_commit_starts_job_witness :
    (handleQualityRelease [c8Item] "q" qualityHalf c8Item.currentQuality).2 = true :=
  ((quality_commit_starts_job [c8Item] c8Item (by decide) (Or.inl (by decide))
    qualityHalf).1).mpr (by decide)

/-- C9: removing an id revokes the found item's preview exactly once and removes the
id from the collection; an absent id leaves the collection unchanged and revokes
nothing; and a compression completion arriving for a removed id leaves the collection
unchanged — stale completions after removal are discarded without error. -/
theorem removeImage_spec (images : List OptimizedImage) (id : String) :
    (images.find? (fun i => i.id == id) = none → removeImage images id = (images, []))
    ∧ (∀ img, images.find? (fun i => i.id == id) = some img →
        (removeImage images id).2 = [img.originalPreview])
    ∧ (∀ img ∈ (removeImage images id).1, ¬ img.id = id)
    ∧ (∀ compressed, applyCompressionSuccess (removeImage images id).1 id compressed
        = (removeImage images id).1) := by
  refine ⟨?_, ?_, ?_, ?_⟩
  · intro hnone
    have hall := List.find?_eq_none.mp hnone
    rw [removeImage, hnone]
    refine Prod.ext ?_ rfl
    show images.filter (fun i => i.id != id) = images
    exact List.filter_eq_self.mpr (fun a ha => by simpa using hall a ha)
  · intro img hsome
    rw [removeImage, hsome]
  · intro img hmem
    have := (List.mem_filter.mp hmem).2
    simpa using this
  · intro compressed
    rw [applyCompressionSuccess, updateImage]
    conv_rhs => rw [← List.map_id ((removeImage images id).1)]
    apply List.map_congr_left
    intro a ha
    have hne : ¬ a.id = id := by simpa using (List.mem_filter.mp ha).2
    rw [if_neg hne]
    rfl

/-- Sample item for the C9 witness. -/
def c9Item : OptimizedImage := mkItem "r" ⟨"r.jpg", "image/jpeg", 10⟩ "blob:r"

/-- Witness for C9: removing an id that is not in the collection changes nothing and
revokes nothing. -/
theorem removeImage_spec_witness :
    removeImage [c9Item] "absent" = ([c9Item], []) :=
  (removeImage_spec [c9Item] "absent").1 (by decide)

/-- An item with user-edited metadata, for the C2 counterexample. -/
def c2Item : OptimizedImage :=
  { mkItem "m" ⟨"photo.jpg", "image/jpeg", 30⟩ "blob:m" with
    status := Status.done
    metadata :=
      { title := "Sunset"
        altText := "A sunset"
        caption := "Golden hour"
        fileName := "sunset" } }

/-- Counterexample to C2: when the suggestion call fails, the handler does not leave
the metadata unchanged — the catch branch of generateImageMetadata returns empty
defaults (with fileName from the original file name), and handleGenerateSEO writes
them over the item's previous metadata. -/
theorem metadata_failure_counterexample :
    (handleGenerateSEOFinish [c2Item] "m" ServiceResult.failure).map
        (fun i => i.metadata)
      = [{ title := "", altText := "", caption := "", fileName := "photo" }]
    ∧ c2Item.metadata
      = { title := "Sunset", altText := "A sunset", caption := "Golden hour",
          fileName := "sunset" }
    ∧ ({ title := "", altText := "", caption := "", fileName := "photo" } : ImageMetadata)
      ≠ { title := "Sunset", altText := "A sunset", caption := "Golden hour",
          fileName := "sunset" } :=
  ⟨by decide, by decide, by decide⟩

/-- C2 amended: a failed metadata request still returns the item to done (never
error), but the four metadata fields are replaced by the failure defaults — empty
title, alt text and caption, and fileName set to the original file name's segment
before its first dot — rather than being left at their prior values. -/
theorem metadata_failure_amended (images : List OptimizedImage) (id : String)
    (i : Nat) :
    (handleGenerateSEOFinish images id ServiceResult.failure)[i]?
      = images[i]?.map (fun img =>
          if img.id = id then
            { img with
              metadata :=
                { title := "", altText := "", caption := "",
                  fileName := takeBeforeFirstDot img.originalFile.name }
              status := Status.done }
          else img)
    ∧ (∀ img ∈ handleGenerateSEOFinish images id ServiceResult.failure,
        img.id = id → img.status = Status.done) := by
  constructor
  · simp [handleGenerateSEOFinish, updateImage, generateImageMetadata]
  · intro img hmem hid
    rcases mem_updateImage hmem with ⟨img0, _, heq⟩
    by_cases h0 : img0.id = id
    · rw [heq, if_pos h0]
    · rw [heq, if_neg h0] at hid ⊢
      exact absurd hid h0

/-- The c2Item after the failure path, for the C2 witness. -/
def c2ItemAfter : OptimizedImage :=
  { c2Item with
    metadata := { title := "", altText := "", caption := "", fileName := "photo" }
    status := Status.done }

/-- Witness for C2 (amended): on the concrete item the failure path lands in done. -/
theorem metadata_failure_amended_witness : c2ItemAfter.status = Status.done :=
  (metadata_failure_amended [c2Item] "m" 0).2 c2ItemAfter (by decide) (by decide)

/-- A committed quality value of three tenths, for the C3 counterexample. -/
def quality03 : ℚ := ⟨3, 10, by norm_num, by norm_num⟩

/-- A done item with a 1-byte result, for the C3 counterexample. -/
def c3Item : OptimizedImage :=
  { mkItem "s" ⟨"s.jpg", "image/jpeg", 40⟩ "blob:s" with
    status := Status.done
    compressedBlob := some ⟨[0]⟩
    compressedSize := 1 }

/-- State after the user commits quality 1/2 (job 1) and then quality 3/10 (job 2). -/
def c3AfterCommits : List OptimizedImage :=
  (handleRecompressStart (handleRecompressStart [c3Item] "s" qualityHalf).1
    "s" quality03).1

/-- State after job 2 (target 3/10) completes with a 1-byte blob. -/
def c3AfterSecondJob : List OptimizedImage :=
  applyCompressionSuccess c3AfterCommits "s" ⟨[5]⟩

/-- State after job 1's stale completion (target 1/2) arrives with a 3-byte blob. -/
def c3AfterStaleJob : List OptimizedImage :=
  applyCompressionSuccess c3AfterSecondJob "s" ⟨[9, 9, 9]⟩

/-- Counterexample to C3: commit quality 1/2, then 3/10; job 2 completes first and
commits its result; then job 1's stale completion — whose target 1/2 no longer
matches the item's current quality 3/10 — arrives and overwrites job 2's result
instead of being discarded. -/
theorem stale_completion_counterexample :
    c3AfterCommits.map (fun i => i.currentQuality) = [quality03]
    ∧ qualityHalf ≠ quality03
    ∧ c3AfterSecondJob.map (fun i => i.compressedSize) = [1]
    ∧ c3AfterStaleJob.map (fun i => i.compressedSize) = [3]
    ∧ c3AfterStaleJob ≠ c3AfterSecondJob :=
  ⟨by decide, by decide, by decide, by decide, by decide⟩

/-- C3 amended: a compression completion is applied unconditionally to the item with
the matching id — the handler carries no quality tag and performs no staleness check,
so a stale completion overwrites the state of a later quality commit. Only a
completion whose id is no longer in the collection is discarded. -/
theorem stale_completion_amended (images : List OptimizedImage) (id : String)
    (compressed : Blob) :
    ((∀ img ∈ images, img.id ≠ id) →
      applyCompressionSuccess images id compressed = images)
    ∧ (∀ i : Nat, (applyCompressionSuccess images id compressed)[i]?
        = images[i]?.map (fun img =>
            if img.id = id then
              { img with
                compressedBlob := some compressed
                compressedSize := compressed.size
                status := Status.done }
            else img)) := by
  constructor
  · intro hall
    rw [applyCompressionSuccess, updateImage]
    conv_rhs => rw [← List.map_id images]
    apply List.map_congr_left
    intro a ha
    rw [if_neg (hall a ha)]
    rfl
  · intro i
    simp [applyCompressionSuccess, updateImage]

/-- An unrelated item, for the C3 witness. -/
def c3OtherItem : OptimizedImage := mkItem "t" ⟨"t.jpg", "image/jpeg", 12⟩ "blob:t"

/-- Witness for C3 (amended): a completion for an id absent from the collection is
discarded. -/
theorem stale_completion_amended_witness :
    applyCompressionSuccess [c3OtherItem] "s" ⟨[1]⟩ = [c3OtherItem] :=
  (stale_completion_amended [c3OtherItem] "s" ⟨[1]⟩).1 (by decide)

/-- Counterexample to C6: for the upload name "my.photo archive.jpg" the code derives
the default fileName from the part before the FIRST dot, yielding "my", while the
claim's reading — everything before the final extension, lowercased and
whitespace-to-hyphen normalized — demands "my.photo-archive". -/
theorem default_fileName_counterexample :
    (mkItem "a" ⟨"my.photo archive.jpg", "image/jpeg", 50⟩ "blob:c6").metadata.fileName
      = "my"
    ∧ specDefaultFileName "my.photo archive.jpg" = "my.photo-archive"
    ∧ ("my" : String) ≠ "my.photo-archive" :=
  ⟨by decide, by decide, by decide⟩

/-- C6 amended: the derived default fileName is the lowercased, whitespace-to-hyphen
normalization of the part of the original name before its FIRST dot — for a name of
the form base ++ "." ++ rest with a dot-free base, that is the normalized base — and
the created items are appended after the existing collection in upload order. -/
theorem default_fileName_amended (prev : List OptimizedImage)
    (ids previews : Nat → String) (files : List FileDesc)
    (idv pv base ext : String) (f : FileDesc)
    (hbase : ∀ c ∈ base.data, c ≠ '.') (hname : f.name = base ++ "." ++ ext) :
    (mkItem idv f pv).metadata.fileName = collapseWs (toLowerStr base)
    ∧ (∀ k, k < prev.length →
        (processFilesAppend prev ids previews files)[k]? = prev[k]?)
    ∧ (∀ j, (processFilesAppend prev ids previews files)[prev.length + j]?
        = (processFilesInit ids previews files)[j]?) := by
  refine ⟨?_, ?_, ?_⟩
  · show defaultFileName f.name = _
    rw [hname]
    unfold defaultFileName
    have hdata : (base ++ "." ++ ext).data = base.data ++ '.' :: ext.data := by
      simp [String.data_append]
    have htake : takeBeforeFirstDot (base ++ "." ++ ext) = base := by
      unfold takeBeforeFirstDot
      rw [hdata, takeWhile_append_cons _ _ _ _
        (fun c hc => by simp [hbase c hc]) (by simp)]
    rw [htake]
  · intro k hk
    rw [processFilesAppend, List.getElem?_append, if_pos hk]
  · intro j
    rw [processFilesAppend, List.getElem?_append, if_neg (by omega)]
    congr 1
    omega

/-- Witness for C6 (amended): the name "summer trip.jpg" derives the default fileName
"summer-trip". -/
theorem default_fileName_amended_witness :
    (mkItem "w" ⟨"summer trip.jpg", "image/png", 9⟩ "blob:w").metadata.fileName
      = collapseWs (toLowerStr "summer trip") :=
  (default_fileName_amended [] (fun _ => "") (fun _ => "") [] "w" "blob:w"
    "summer trip" "jpg" ⟨"summer trip.jpg", "image/png", 9⟩
    (by decide) (by decide)).1
